import Mathlib

/-! Verification development for the virtualized drag-and-drop kanban board.

The embedding covers, from the source:
* the board data model (`KanbanBoard.this.data.columns`) and the item
  operations `findItemById`, `removeItem`, `addItem`, `handleDrop`
  (KanbanBoard component, bundled inside src/js/utils/performance.js);
* the visible-range computation and the add/remove diff pass of
  `VirtualScroller.renderVisibleItems` (src/js/core/VirtualScroller.js);
* the pointer handlers of `DragManager`
  (src/js/core/DragManager.js), with DOM-only work (clone positioning,
  CSS classes, animations) elided and the transient session fields kept.
-/

/-- An item of a kanban column: the `{ id, text }` objects created in
index.html and `KanbanBoard.addNewTask`.  The `JSON.parse(JSON.stringify(_))`
deep copy taken in `handleDrop` is the identity on this model. -/
structure Item where
  id : Nat
  text : String
deriving DecidableEq, Repr

/-- A board column `{ id, title, items }`; the title plays no role in any
claim and is omitted. -/
structure Column where
  id : Nat
  items : List Item
deriving DecidableEq, Repr

/-- The board model `this.data.columns` of `KanbanBoard`. -/
abbrev Board := List Column

/-- The lookup `this.data.columns.find(col => col.id === columnId)`: the first column
whose id matches, if any. -/
def findColumn (b : Board) (cid : Nat) : Option Column :=
  b.find? (fun c => c.id == cid)

/-- JS `Array.prototype.find` hands back a reference into `columns`, and
`splice` then mutates that column in place; this models the effect: rewrite
the items of the first column matching `cid`, leave the rest alone. -/
def updateColumn : Board → Nat → (List Item → List Item) → Board
  | [], _, _ => []
  | c :: cs, cid, f =>
    if c.id == cid then { c with items := f c.items } :: cs
    else c :: updateColumn cs cid f

/-- All item ids on the board, column by column, in order. -/
def allIds (b : Board) : List Nat :=
  b.flatMap (fun c => c.items.map Item.id)

/-- The column ids, in board order. -/
def columnIds (b : Board) : List Nat :=
  b.map Column.id

/-- Source `KanbanBoard.findItemById(columnId, itemId)`: `null`/`undefined` results
are both `none`. -/
def findItemById (b : Board) (cid itemId : Nat) : Option Item :=
  match findColumn b cid with
  | none => none
  | some col => col.items.find? (fun it => it.id == itemId)

/-- Source `KanbanBoard.removeItem(columnId, index)`: silently returns unless the
column exists and `0 <= index < column.items.length`; otherwise
`splice(index, 1)`.  The callers feed `parseInt` results, so the index is an
integer, possibly negative.  The trailing
`filter(item => item !== null && item !== undefined)` never removes anything
in this model (no item is null). -/
def removeItem (b : Board) (cid : Nat) (index : Int) : Board :=
  match findColumn b cid with
  | none => b
  | some col =>
    if index < 0 ∨ (col.items.length : Int) ≤ index then b
    else updateColumn b cid (fun items => items.eraseIdx index.toNat)

/-- Source `KanbanBoard.addItem(columnId, index, item)`: no-op when the column id
matches nothing; otherwise inserts at
`validIndex = Math.min(Math.max(0, index), column.items.length)`. -/
def addItem (b : Board) (cid : Nat) (index : Int) (it : Item) : Board :=
  match findColumn b cid with
  | none => b
  | some _ =>
    updateColumn b cid (fun items =>
      items.insertIdx (min (max 0 index) (items.length : Int)).toNat it)

/-- Source `KanbanBoard.handleDrop`, restricted to its effect on `this.data`
(everything else in the handler is DOM/animation work).  Parameters mirror
exactly the fields the handler reads: `srcCid` is
`parseInt(data.item.dataset.sourceColumnId)`, `tgtCid` is
`parseInt(data.targetList.dataset.columnId)`, `itemIndex` is
`parseInt(data.item.dataset.itemIndex)`, `itemId` is `data.data.id`,
`tIdx` is `data.targetIndex` and `pos` is `data.position` (the pointer's Y
offset inside the target list, in pixels).  The line
`const targetIndex = data.targetIndex || Math.floor(data.position / this.ITEM_HEIGHT)`
falls back to the division when `data.targetIndex` is the falsy number 0. -/
def handleDrop (b : Board) (srcCid tgtCid itemId : Nat) (itemIndex : Int)
    (tIdx : Int) (pos H : ℚ) : Board :=
  match findItemById b srcCid itemId with
  | none => b
  | some itemData =>
    let targetIndex : Int := if tIdx = 0 then Int.floor (pos / H) else tIdx
    let b1 := removeItem b srcCid itemIndex
    addItem b1 tgtCid targetIndex itemData

/-! VirtualScroller (src/js/core/VirtualScroller.js). -/

/-- The JS `Math.ceil(a / b)` on non-negative integers: JavaScript computes it on
floats, which for naturals equals `(a + b - 1) / b` in truncating
division. -/
def ceilDiv (a b : Nat) : Nat := (a + b - 1) / b

/-- The index range `renderVisibleItems` materializes (lines 54-67):
`visibleItemCount = ceil(containerHeight / ITEM_HEIGHT)`,
`effectiveBuffer = max(BUFFER_ITEMS, visibleItemCount)`,
`startIndex = max(0, floor(scrollTop / ITEM_HEIGHT) - effectiveBuffer)`,
`endIndex = min(items.length, ceil((scrollTop + containerHeight) / ITEM_HEIGHT) + effectiveBuffer)`.
JS `Math.max(0, x - y)` on naturals is exactly truncated subtraction. -/
def renderVisibleRange (itemCount scrollTop containerHeight itemHeight bufferItems : Nat) :
    Nat × Nat :=
  let visibleItemCount := ceilDiv containerHeight itemHeight
  let effectiveBuffer := max bufferItems visibleItemCount
  let startIndex := scrollTop / itemHeight - effectiveBuffer
  let endIndex :=
    min itemCount (ceilDiv (scrollTop + containerHeight) itemHeight + effectiveBuffer)
  (startIndex, endIndex)

/-- Removal phase of the diff pass (lines 87-112): every previously
materialized index outside the new `[start, stop)` range is torn down. -/
def diffToRemove (prev : Finset Nat) (start stop : Nat) : Finset Nat :=
  prev.filter (fun i => i < start ∨ stop ≤ i)

/-- Indices the removal phase keeps: materialized before and still inside
the new range (the `currentItems` accumulator of the pass). -/
def diffKept (prev : Finset Nat) (start stop : Nat) : Finset Nat :=
  prev.filter (fun i => start ≤ i ∧ i < stop)

/-- Addition phase (lines 115-132): `for (i = startIndex; i < endIndex; i++)`,
an index is materialized when it is not in the visible set left by the
removal phase and `this.items[i]` exists (`i < items.length`; the model has
no null slots). -/
def diffToAdd (prev : Finset Nat) (start stop len : Nat) : Finset Nat :=
  (Finset.Ico start stop).filter (fun i => i ∉ diffKept prev start stop ∧ i < len)

/-! DragManager (src/js/core/DragManager.js). -/

/-- The insertion index DragManager derives from a pointer sample:
`Math.floor(relativeY / this.itemHeight)` with
`relativeY = e.clientY - dropList.getBoundingClientRect().top`.  The same
formula is used by `updatePlaceholderPosition` (`newIndex`, line 276) and by
`pointerUpHandler` (`targetIndex`, line 453).  No clamping and no exclusion
of the dragged item happens here. -/
def dropTargetIndex (relativeY itemHeight : ℚ) : Int :=
  Int.floor (relativeY / itemHeight)

/-- The drag payload attached to a draggable element:
`dataset.dragData = { id, index, text }` (written by
`KanbanBoard.renderItem`), plus `dataset.itemIndex` and — written by
`KanbanBoard.handleDragStart` — `dataset.sourceColumnId`. -/
structure DragItemRef where
  itemId : Nat
  itemIndex : Int
  sourceColumnId : Nat
  text : String
deriving DecidableEq, Repr

/-- The DragManager fields that persist between pointer events; DOM nodes
(clone, placeholder) are abstracted to the data they carry. -/
structure DMState where
  dragActive : Bool
  draggedItem : Option DragItemRef
  sourceList : Option Nat
  offsetX : ℚ
  offsetY : ℚ
  currentDropTarget : Option Nat
  placeholderIndex : Int
deriving DecidableEq, Repr

/-- A pointerdown sample together with the geometry the handler reads:
`closestDroppable` is `e.currentTarget.closest('[data-droppable="true"]')`
(as a column id), `rectLeft`/`rectTop` the dragged element's bounding
rectangle corner. -/
structure PointerDownSample where
  button : Nat
  item : DragItemRef
  closestDroppable : Option Nat
  clientX : ℚ
  clientY : ℚ
  rectLeft : ℚ
  rectTop : ℚ
deriving DecidableEq, Repr

/-- Source `DragManager.pointerDownHandler` (lines 78-143).  Only the primary
button starts work; note the handler sets `dragActive`, `draggedItem` and
`sourceList` before the `!this.sourceList` early return, and never consults
the previous `dragActive`. -/
def pointerDownHandler (st : DMState) (e : PointerDownSample) : DMState :=
  if e.button ≠ 0 then st
  else
    let st1 : DMState :=
      { st with dragActive := true, draggedItem := some e.item,
                sourceList := e.closestDroppable }
    match e.closestDroppable with
    | none => st1
    | some _ =>
      { st1 with offsetX := e.clientX - e.rectLeft,
                 offsetY := e.clientY - e.rectTop }

/-- Source `DragManager.cleanupDrag` (state effect only): `removePlaceholder` resets
`placeholderIndex` to -1, and the final block resets the session fields.
Every other statement is DOM/animation work. -/
def cleanupDrag (st : DMState) : DMState :=
  { st with placeholderIndex := -1, dragActive := false,
            draggedItem := none, sourceList := none,
            currentDropTarget := none }

/-- A pointermove sample: `hovered` is the droppable list found by
`document.elementsFromPoint` (as a column id), `hoveredRectTop` its bounding
rectangle top, and `draggedStillInDocument` the
`document.body.contains(this.draggedItem)` check. -/
structure PointerMoveSample where
  clientX : ℚ
  clientY : ℚ
  hovered : Option Nat
  hoveredRectTop : ℚ
  draggedStillInDocument : Bool
deriving DecidableEq, Repr

/-- Source `DragManager.pointerMoveHandler` (lines 163-256) together with the
`updatePlaceholderPosition` it invokes: updates the clone (DOM only), on a
target change resets the placeholder (`removePlaceholder` puts
`placeholderIndex := -1`) and records the new target, then recomputes the
placeholder index inside the current target.  The board is never read or
written — the second component is returned untouched on every path, exactly
as the source never mentions `this.data`. -/
def pointerMoveHandler (st : DMState) (b : Board) (e : PointerMoveSample)
    (H : ℚ) : DMState × Board :=
  if st.dragActive = false ∨ st.draggedItem = none then (st, b)
  else if e.draggedStillInDocument = false then (cleanupDrag st, b)
  else
    let st1 :=
      if e.hovered ≠ st.currentDropTarget then
        { st with placeholderIndex := -1, currentDropTarget := e.hovered }
      else st
    let st2 :=
      match st1.currentDropTarget with
      | none => st1
      | some _ =>
        let newIndex := dropTargetIndex (e.clientY - e.hoveredRectTop) H
        if newIndex ≠ st1.placeholderIndex then
          { st1 with placeholderIndex := newIndex }
        else st1
    (st2, b)

/-- A pointerup sample, with the same hovered-droppable resolution as
pointermove. -/
structure PointerUpSample where
  clientX : ℚ
  clientY : ℚ
  hovered : Option Nat
  hoveredRectTop : ℚ
deriving DecidableEq, Repr

/-- Source `DragManager.pointerUpHandler` (lines 429-481) wired, as in the
KanbanBoard constructor, to `options.onDrop = KanbanBoard.handleDrop`:
when a droppable list is under the pointer it computes
`relativeY = e.clientY - containerRect.top` and
`targetIndex = Math.floor(relativeY / itemHeight)` and fires the drop;
otherwise the board is untouched.  Both paths end in `cleanupDrag`. -/
def pointerUpHandler (st : DMState) (b : Board) (e : PointerUpSample)
    (H : ℚ) : DMState × Board :=
  match st.draggedItem with
  | none => (st, b)
  | some ref =>
    if st.dragActive = false then (st, b)
    else
      match e.hovered with
      | none => (cleanupDrag { st with dragActive := false }, b)
      | some tgtCid =>
        let relativeY := e.clientY - e.hoveredRectTop
        let targetIndex := dropTargetIndex relativeY H
        let b1 := handleDrop b ref.sourceColumnId tgtCid ref.itemId
          ref.itemIndex targetIndex relativeY H
        (cleanupDrag { st with dragActive := false }, b1)

/-! Specification-side formulas, for the refinement claims. -/

/-- The insertion-index rule exactly as the specification words it
(claim C2): `floor((pointerY - targetListTopY) / itemHeight)` clamped to
`[0, n]`, where `n` is the target list's length with the dragged item
excluded. -/
def specInsertionIndex (relativeY itemHeight : ℚ) (excludedLen : Nat) : Int :=
  min (max 0 (Int.floor (relativeY / itemHeight))) (excludedLen : Int)

/-- The windowing formula exactly as the specification words it (claim C4),
with real floor/ceiling arithmetic and a literal `max(0, _)` in ℤ. -/
def specVisibleRange (itemCount scrollOffset viewportHeight itemHeight bufferCount : Nat) :
    Int × Int :=
  let rawStart : Int := Int.floor ((scrollOffset : ℚ) / (itemHeight : ℚ))
  let rawVisibleCount : Int := Int.ceil ((viewportHeight : ℚ) / (itemHeight : ℚ))
  let effectiveBuffer : Int := max (bufferCount : Int) rawVisibleCount
  (max 0 (rawStart - effectiveBuffer),
   min (itemCount : Int)
     (Int.ceil (((scrollOffset : ℚ) + (viewportHeight : ℚ)) / (itemHeight : ℚ)) + effectiveBuffer))

/-! Theorems. -/

/-- Claim C10: for every columnId and every integer index that is negative
or at least the column's length — and likewise for a columnId matching no
column — `removeItem` returns without modifying any column (a silent no-op,
no error). -/
theorem C10_removeItem_out_of_range_noop (b : Board) (cid : Nat) (index : Int)
    (h : ∀ col, findColumn b cid = some col →
      index < 0 ∨ (col.items.length : Int) ≤ index) :
    removeItem b cid index = b := by
  unfold removeItem
  cases hfc : findColumn b cid with
  | none => rfl
  | some col => exact if_pos (h col hfc)

/-- Witness for C10 at a concrete out-of-range input. -/
theorem C10_witness :
    removeItem [⟨0, [⟨1, "A"⟩]⟩] 0 (-1) = [⟨0, [⟨1, "A"⟩]⟩] :=
  C10_removeItem_out_of_range_noop _ _ _ (fun _ _ => Or.inl (by decide))

/-- Claim C6: when the dragged item's id is not present in the origin
column at commit time, `handleDrop` (which looks the item up by id before
any removal) mutates no column and terminates normally as a no-op. -/
theorem C6_handleDrop_unresolvable_id_noop (b : Board)
    (srcCid tgtCid itemId : Nat) (itemIndex tIdx : Int) (pos H : ℚ)
    (h : findItemById b srcCid itemId = none) :
    handleDrop b srcCid tgtCid itemId itemIndex tIdx pos H = b := by
  unfold handleDrop
  rw [h]

/-- Witness for C6: item id 2 is absent from column 0. -/
theorem C6_witness :
    handleDrop [⟨0, [⟨1, "A"⟩]⟩] 0 0 2 0 1 0 50 = [⟨0, [⟨1, "A"⟩]⟩] :=
  C6_handleDrop_unresolvable_id_noop _ _ _ _ _ _ _ _ (by decide)

/-- Claim C5: a pointer-move never mutates any column's items, and a
pointer-up over no droppable target leaves the board exactly as it was. -/
theorem C5_no_model_mutation_without_target :
    (∀ (st : DMState) (b : Board) (e : PointerMoveSample) (H : ℚ),
      (pointerMoveHandler st b e H).2 = b) ∧
    (∀ (st : DMState) (b : Board) (e : PointerUpSample) (H : ℚ),
      e.hovered = none → (pointerUpHandler st b e H).2 = b) := by
  constructor
  · intro st b e H
    unfold pointerMoveHandler
    split
    · rfl
    · split <;> rfl
  · intro st b e H h
    unfold pointerUpHandler
    cases hd : st.draggedItem with
    | none => rfl
    | some ref =>
      by_cases ha : st.dragActive = false <;> simp [ha, h]

/-- Witness for C5 at a concrete no-target pointer-up. -/
theorem C5_witness :
    (pointerUpHandler ⟨true, some ⟨1, 0, 0, "A"⟩, some 0, 0, 0, none, -1⟩
        [⟨0, [⟨1, "A"⟩]⟩] ⟨3, 4, none, 0⟩ 50).2 = [⟨0, [⟨1, "A"⟩]⟩] :=
  C5_no_model_mutation_without_target.2 _ _ _ _ rfl

/-- Claim C7 is false on the code: `pointerDownHandler` never consults
`this.dragActive`, so a primary-button pointer-down arriving while a
session is ACTIVE overwrites the existing session instead of being
ignored.  Concretely, with a session active on item id 1, a pointer-down
on item id 2 changes the state. -/
theorem C7_counterexample :
    pointerDownHandler
        ⟨true, some ⟨1, 0, 0, "A"⟩, some 0, 0, 0, none, -1⟩
        ⟨0, ⟨2, 1, 0, "B"⟩, some 0, 10, 20, 3, 4⟩
      ≠ ⟨true, some ⟨1, 0, 0, "A"⟩, some 0, 0, 0, none, -1⟩ := by
  decide

/-- Claim C7, amended: only a pointer-down with a non-primary button is
ignored.  A primary-button pointer-down is never ignored: even while a
session is ACTIVE it starts a new session, overwriting the stored dragged
item, origin list and (when a droppable ancestor exists) the offsets; the
later press replaces the earlier session, so at most one session's fields
are stored at any time. -/
theorem C7_amended_pointerDown (st : DMState) (e : PointerDownSample) :
    (e.button ≠ 0 → pointerDownHandler st e = st) ∧
    (e.button = 0 → (pointerDownHandler st e).dragActive = true ∧
      (pointerDownHandler st e).draggedItem = some e.item ∧
      (pointerDownHandler st e).sourceList = e.closestDroppable) := by
  constructor
  · intro h
    unfold pointerDownHandler
    rw [if_pos h]
  · intro h
    unfold pointerDownHandler
    rw [if_neg (by simp [h])]
    cases hc : e.closestDroppable <;> simp

/-- Witness for C7's amended statement: the replacing press stores the new
item. -/
theorem C7_witness :
    (pointerDownHandler ⟨true, some ⟨1, 0, 0, "A"⟩, some 0, 0, 0, none, -1⟩
        ⟨0, ⟨2, 1, 0, "B"⟩, some 0, 10, 20, 3, 4⟩).draggedItem
      = some ⟨2, 1, 0, "B"⟩ :=
  ((C7_amended_pointerDown _ _).2 rfl).2.1

/-- Claim C2 is false on the code: the insertion index DragManager computes
is not clamped to `[0, targetList.items.length]`.  Pointer 400px below a
2-item list's top (reachable: lists get a common equalized min-height)
yields raw index 8, not the clamped value the spec formula gives. -/
theorem C2_counterexample :
    dropTargetIndex 400 50 ≠ specInsertionIndex 400 50 2 := by
  have hfl : Int.floor ((400 : ℚ) / 50) = 8 := by norm_num
  unfold dropTargetIndex specInsertionIndex
  rw [hfl]
  decide

/-- Claim C2, amended: during ACTIVE and at drop the insertion index is the
raw `floor((pointerY - targetListTopY) / itemHeight)` — hovering slot `i`
always yields exactly `i`, so dragging the item at index 3 over index 3's
slot yields 3, not 4 — but no clamping (and no exclusion bookkeeping) is
applied at computation time; the computed value agrees with the clamped
spec formula only when it already lies inside `[0, len]`. -/
theorem C2_amended_insertion_index (y H : ℚ) (hH : 0 < H) :
    (∀ i : Nat, (i : ℚ) * H ≤ y → y < ((i : ℚ) + 1) * H →
      dropTargetIndex y H = (i : Int)) ∧
    (∀ len : Nat, 0 ≤ dropTargetIndex y H → dropTargetIndex y H ≤ (len : Int) →
      dropTargetIndex y H = specInsertionIndex y H len) := by
  constructor
  · intro i h1 h2
    unfold dropTargetIndex
    rw [Int.floor_eq_iff]
    constructor
    · rw [le_div_iff₀ hH]
      push_cast
      linarith
    · rw [div_lt_iff₀ hH]
      push_cast
      linarith
  · intro len h0 hlen
    unfold dropTargetIndex at h0 hlen
    unfold dropTargetIndex specInsertionIndex
    rw [max_eq_right h0, min_eq_left hlen]

/-- For `0 < b`, the truncating `(a + b - 1) / b` is at least `a / b`
rounded up: `a ≤ ceilDiv a b * b`. -/
theorem le_ceilDiv_mul (a b : Nat) (hb : 0 < b) : a ≤ ceilDiv a b * b := by
  unfold ceilDiv
  have hmod := Nat.div_add_mod (a + b - 1) b
  have hlt : (a + b - 1) % b < b := Nat.mod_lt _ hb
  rw [mul_comm]
  generalize hq : (a + b - 1) / b = q at *
  generalize hr : (a + b - 1) % b = r at *
  generalize hbq : b * q = p at *
  omega

/-- For `0 < b`, `ceilDiv a b * b` overshoots `a` by less than `b`. -/
theorem ceilDiv_mul_lt (a b : Nat) (hb : 0 < b) : ceilDiv a b * b < a + b := by
  unfold ceilDiv
  have hmod := Nat.div_add_mod (a + b - 1) b
  have hlt : (a + b - 1) % b < b := Nat.mod_lt _ hb
  rw [mul_comm]
  generalize hq : (a + b - 1) / b = q at *
  generalize hr : (a + b - 1) % b = r at *
  generalize hbq : b * q = p at *
  omega

/-- The function `ceilDiv` is the real ceiling of the division, for a positive
denominator. -/
theorem int_ceil_natCast_div (a b : Nat) (hb : 0 < b) :
    Int.ceil ((a : ℚ) / (b : ℚ)) = ((ceilDiv a b : Nat) : Int) := by
  have hbQ : (0 : ℚ) < (b : ℚ) := by exact_mod_cast hb
  rw [Int.ceil_eq_iff]
  constructor
  · rw [lt_div_iff₀ hbQ]
    have h2 := ceilDiv_mul_lt a b hb
    have h2Q : ((ceilDiv a b : ℚ)) * b < a + b := by exact_mod_cast h2
    push_cast
    linarith
  · rw [div_le_iff₀ hbQ]
    have h1 := le_ceilDiv_mul a b hb
    exact_mod_cast h1

/-- Truncating `Nat` division is the real floor of the division. -/
theorem int_floor_natCast_div (a b : Nat) :
    Int.floor ((a : ℚ) / (b : ℚ)) = ((a / b : Nat) : Int) := by
  rw [Rat.floor_natCast_div_natCast]
  exact (Int.ofNat_div a b).symm

/-- Claim C3: every index whose top edge lies inside the viewport band
`[scrollOffset, scrollOffset + viewportHeight)` is inside the materialized
range `renderVisibleItems` computes. -/
theorem C3_windowing_coverage (itemCount scrollTop ch H buf i : Nat)
    (hH : 0 < H) (hch : 0 < ch) (hs : scrollTop ≤ itemCount * H)
    (hi : i < itemCount) (h1 : scrollTop ≤ i * H) (h2 : i * H < scrollTop + ch) :
    (renderVisibleRange itemCount scrollTop ch H buf).1 ≤ i ∧
    i < (renderVisibleRange itemCount scrollTop ch H buf).2 := by
  unfold renderVisibleRange
  constructor
  · have hfloor : scrollTop / H ≤ i := by
      have hd := Nat.div_le_div_right (c := H) h1
      rwa [Nat.mul_div_cancel _ hH] at hd
    exact le_trans (Nat.sub_le _ _) hfloor
  · have hceil : i < ceilDiv (scrollTop + ch) H := by
      unfold ceilDiv
      have hle : (i + 1) * H ≤ scrollTop + ch + H - 1 := by
        rw [add_mul, one_mul]
        omega
      have := (Nat.le_div_iff_mul_le hH).mpr hle
      omega
    exact lt_min hi (lt_of_lt_of_le hceil (Nat.le_add_right _ _))

/-- Witness for C3: item 5 (top edge 250) with the viewport at
[200, 300) lands inside the computed range (0, 11). -/
theorem C3_witness :
    (renderVisibleRange 100 200 100 50 5).1 ≤ 5 ∧
    5 < (renderVisibleRange 100 200 100 50 5).2 :=
  C3_windowing_coverage 100 200 100 50 5 5 (by decide) (by decide) (by decide)
    (by decide) (by decide) (by decide)

/-- Claim C4 is false on the code in its zero-items special case: the
computed pair is the formula for every input, but with `itemCount = 0` and
a non-zero scroll offset the start of the range is not 0 — for scroll
offset 1000, viewport 100, item height 50, buffer 5 the code yields
(15, 0), not (0, 0). -/
theorem C4_counterexample : renderVisibleRange 0 1000 100 50 5 ≠ (0, 0) := by
  decide

/-- Claim C4, amended: the computed range equals exactly the spec formula
(max(0, floor(scrollOffset/itemHeight) - effectiveBuffer),
min(itemCount, ceil((scrollOffset+viewportHeight)/itemHeight) + effectiveBuffer))
with effectiveBuffer = max(bufferCount, ceil(viewportHeight/itemHeight));
when itemCount is 0 the end of the range is 0 — no item is materialized and
no error is raised — and the range is exactly (0, 0) when the scroll offset
is also 0 (the only scroll offset an empty list's zero-height scroll extent
admits), though not for arbitrary scroll offsets. -/
theorem C4_amended_range_formula (itemCount scrollTop ch H buf : Nat)
    (hH : 0 < H) :
    (((renderVisibleRange itemCount scrollTop ch H buf).1 : Int),
      ((renderVisibleRange itemCount scrollTop ch H buf).2 : Int))
        = specVisibleRange itemCount scrollTop ch H buf ∧
    (itemCount = 0 → (renderVisibleRange itemCount scrollTop ch H buf).2 = 0) ∧
    (itemCount = 0 → scrollTop = 0 →
      renderVisibleRange itemCount scrollTop ch H buf = (0, 0)) := by
  refine ⟨?_, ?_, ?_⟩
  · unfold renderVisibleRange specVisibleRange
    rw [int_floor_natCast_div, int_ceil_natCast_div ch H hH]
    rw [show ((scrollTop : ℚ) + (ch : ℚ)) = ((scrollTop + ch : Nat) : ℚ) by push_cast; ring]
    rw [int_ceil_natCast_div (scrollTop + ch) H hH]
    simp only [Prod.mk.injEq]
    constructor
    · push_cast
      omega
    · push_cast
      omega
  · intro h0
    subst h0
    simp [renderVisibleRange]
  · intro h0 hs
    subst h0
    subst hs
    simp [renderVisibleRange, ceilDiv, Nat.zero_div]

/-- Witness for C4's amended statement at a concrete input. -/
theorem C4_witness :
    ((((renderVisibleRange 100 0 300 50 5).1 : Int),
      ((renderVisibleRange 100 0 300 50 5).2 : Int))
        = specVisibleRange 100 0 300 50 5) ∧
    (100 = 0 → (renderVisibleRange 100 0 300 50 5).2 = 0) ∧
    (100 = 0 → 0 = 0 → renderVisibleRange 100 0 300 50 5 = (0, 0)) :=
  C4_amended_range_formula 100 0 300 50 5 (by decide)

/-- Claim C8: the diff pass's removal set is exactly the previously
materialized indices that left the range, its addition set exactly the
in-range indices not previously materialized; the two are disjoint, and an
index in the overlap is in neither (its handle survives). -/
theorem C8_diff_minimality (prev : Finset Nat) (start stop len : Nat)
    (hlen : stop ≤ len)
    (hoverlap : (prev ∩ Finset.Ico start stop).Nonempty) :
    diffToRemove prev start stop = prev \ Finset.Ico start stop ∧
    diffToAdd prev start stop len = Finset.Ico start stop \ prev ∧
    Disjoint (diffToRemove prev start stop) (diffToAdd prev start stop len) ∧
    (∀ i ∈ prev, start ≤ i → i < stop →
      i ∉ diffToRemove prev start stop ∧ i ∉ diffToAdd prev start stop len) := by
  have hrem : diffToRemove prev start stop = prev \ Finset.Ico start stop := by
    ext i
    simp only [diffToRemove, Finset.mem_filter, Finset.mem_sdiff, Finset.mem_Ico]
    constructor
    · rintro ⟨hp, h⟩
      exact ⟨hp, by omega⟩
    · rintro ⟨hp, h⟩
      exact ⟨hp, by omega⟩
  have hadd : diffToAdd prev start stop len = Finset.Ico start stop \ prev := by
    ext i
    simp only [diffToAdd, diffKept, Finset.mem_filter, Finset.mem_sdiff,
      Finset.mem_Ico]
    by_cases hp : i ∈ prev <;> simp [hp] <;> omega
  refine ⟨hrem, hadd, ?_, ?_⟩
  · rw [hrem, hadd]
    exact disjoint_sdiff_sdiff
  · intro i hp hs ht
    rw [hrem, hadd]
    simp only [Finset.mem_sdiff, Finset.mem_Ico]
    constructor
    · rintro ⟨_, hno⟩
      exact hno ⟨hs, ht⟩
    · rintro ⟨_, hno⟩
      exact hno hp

/-- Witness for C8: previous set {0, 1, 2}, new range [1, 3), backing
length 5; index 1 overlaps. -/
theorem C8_witness :
    diffToRemove {0, 1, 2} 1 3 = ({0, 1, 2} : Finset Nat) \ Finset.Ico 1 3 ∧
    diffToAdd {0, 1, 2} 1 3 5 = Finset.Ico 1 3 \ ({0, 1, 2} : Finset Nat) ∧
    Disjoint (diffToRemove {0, 1, 2} 1 3) (diffToAdd {0, 1, 2} 1 3 5) ∧
    (∀ i ∈ ({0, 1, 2} : Finset Nat), 1 ≤ i → i < 3 →
      i ∉ diffToRemove {0, 1, 2} 1 3 ∧ i ∉ diffToAdd {0, 1, 2} 1 3 5) :=
  C8_diff_minimality {0, 1, 2} 1 3 5 (by decide) (by decide)

/-- Claim C9: on the single list A, B, C, D (item height 50), releasing a
drag of item B (origin index 1, id 2) with the pointer inside row 2's band
`[100, 150)` of the same list commits the order A, C, B, D. -/
theorem C9_same_list_row2_scenario (y : ℚ) (h1 : 100 ≤ y) (h2 : y < 150) :
    (pointerUpHandler
        ⟨true, some ⟨2, 1, 0, "B"⟩, some 0, 0, 0, some 0, 2⟩
        [⟨0, [⟨1, "A"⟩, ⟨2, "B"⟩, ⟨3, "C"⟩, ⟨4, "D"⟩]⟩]
        ⟨0, y, some 0, 0⟩ 50).2
      = [⟨0, [⟨1, "A"⟩, ⟨3, "C"⟩, ⟨2, "B"⟩, ⟨4, "D"⟩]⟩] := by
  have hfl : dropTargetIndex (y - 0) 50 = 2 := by
    unfold dropTargetIndex
    rw [sub_zero, Int.floor_eq_iff]
    constructor
    · rw [le_div_iff₀ (by norm_num : (0 : ℚ) < 50)]
      push_cast
      linarith
    · rw [div_lt_iff₀ (by norm_num : (0 : ℚ) < 50)]
      push_cast
      linarith
  have hstep : ∀ pos : ℚ,
      handleDrop [⟨0, [⟨1, "A"⟩, ⟨2, "B"⟩, ⟨3, "C"⟩, ⟨4, "D"⟩]⟩] 0 0 2 1 2 pos 50
        = [⟨0, [⟨1, "A"⟩, ⟨3, "C"⟩, ⟨2, "B"⟩, ⟨4, "D"⟩]⟩] := by
    intro pos
    unfold handleDrop
    rw [show findItemById [⟨0, [⟨1, "A"⟩, ⟨2, "B"⟩, ⟨3, "C"⟩, ⟨4, "D"⟩]⟩] 0 2
        = some ⟨2, "B"⟩ from rfl]
    rw [if_neg (by decide : ¬((2 : Int) = 0))]
    decide
  show (pointerUpHandler _ _ _ _).2 = _
  unfold pointerUpHandler
  simp only [hfl]
  exact hstep (y - 0)

/-- Witness for C9 at pointer offset 120. -/
theorem C9_witness :
    (pointerUpHandler
        ⟨true, some ⟨2, 1, 0, "B"⟩, some 0, 0, 0, some 0, 2⟩
        [⟨0, [⟨1, "A"⟩, ⟨2, "B"⟩, ⟨3, "C"⟩, ⟨4, "D"⟩]⟩]
        ⟨0, 120, some 0, 0⟩ 50).2
      = [⟨0, [⟨1, "A"⟩, ⟨3, "C"⟩, ⟨2, "B"⟩, ⟨4, "D"⟩]⟩] :=
  C9_same_list_row2_scenario 120 (by norm_num) (by norm_num)

/-- A successful `findColumn` splits the board around the first matching
column, and `updateColumn` rewrites exactly that column. -/
theorem findColumn_decomp (b : Board) (cid : Nat) (col : Column)
    (h : findColumn b cid = some col) :
    ∃ pre post, b = pre ++ col :: post ∧ col.id = cid ∧
      ∀ f, updateColumn b cid f = pre ++ { col with items := f col.items } :: post := by
  induction b with
  | nil => simp [findColumn] at h
  | cons c cs ih =>
    by_cases hc : c.id = cid
    · have hfind : findColumn (c :: cs) cid = some c := by
        unfold findColumn
        rw [List.find?_cons_of_pos _ (by simpa using hc)]
      have hcc : c = col := by
        have := hfind.symm.trans h
        injection this
      subst hcc
      refine ⟨[], cs, rfl, hc, ?_⟩
      intro f
      unfold updateColumn
      rw [if_pos (by simpa using hc)]
      rfl
    · have hfind : findColumn (c :: cs) cid = findColumn cs cid := by
        unfold findColumn
        rw [List.find?_cons_of_neg _ (by simpa using hc)]
      rw [hfind] at h
      obtain ⟨pre, post, hb, hcid, hupd⟩ := ih h
      refine ⟨c :: pre, post, by rw [List.cons_append, ← hb], hcid, ?_⟩
      intro f
      unfold updateColumn
      rw [if_neg (by simpa using hc), hupd f]
      rfl

/-- Computing `allIds` over a split board. -/
theorem allIds_decomp (pre post : Board) (c : Column) :
    allIds (pre ++ c :: post)
      = allIds pre ++ (c.items.map Item.id ++ allIds post) := by
  simp [allIds]

/-- A list with element `it` at position `i` is a permutation of `it`
consed onto the list with position `i` spliced out. -/
theorem eraseIdx_cons_perm {α : Type} (l : List α) (i : Nat) (a : α)
    (h : l[i]? = some a) : l.Perm (a :: l.eraseIdx i) := by
  have hi : i < l.length := by
    by_contra hge
    rw [List.getElem?_eq_none (by omega)] at h
    exact Option.noConfusion h
  have hget : l[i] = a := by
    have he := List.getElem?_eq_getElem hi
    rw [he] at h
    injection h
  have hdecomp : l = l.take i ++ l[i] :: l.drop (i + 1) := by
    conv_lhs => rw [← List.take_append_drop i l]
    rw [List.drop_eq_getElem_cons hi]
  rw [List.eraseIdx_eq_take_drop_succ]
  conv_lhs => rw [hdecomp, hget]
  exact List.perm_middle

/-- Removing a present item from a column removes exactly one occurrence of
its id from the board's id multiset. -/
theorem removeItem_allIds_perm (b : Board) (cid : Nat) (i : Nat)
    (col : Column) (it : Item) (hcol : findColumn b cid = some col)
    (hget : col.items[i]? = some it) :
    (allIds b).Perm (it.id :: allIds (removeItem b cid (i : Int))) := by
  obtain ⟨pre, post, hb, hcid, hupd⟩ := findColumn_decomp b cid col hcol
  have hi : i < col.items.length := by
    by_contra hge
    rw [List.getElem?_eq_none (by omega)] at hget
    exact Option.noConfusion hget
  have hcond : ¬((i : Int) < 0 ∨ ((col.items.length : Nat) : Int) ≤ (i : Int)) := by
    omega
  have htn : ((i : Int)).toNat = i := by omega
  have hrm : removeItem b cid (i : Int)
      = pre ++ { col with items := col.items.eraseIdx i } :: post := by
    unfold removeItem
    rw [hcol]
    show (if (i : Int) < 0 ∨ ((col.items.length : Nat) : Int) ≤ (i : Int) then b
        else updateColumn b cid fun items => items.eraseIdx ((i : Int)).toNat)
      = pre ++ { col with items := col.items.eraseIdx i } :: post
    rw [if_neg hcond, hupd]
    rw [htn]
  have hitems : (col.items.map Item.id).Perm
      (it.id :: (col.items.eraseIdx i).map Item.id) := by
    have hp := (eraseIdx_cons_perm col.items i it hget).map Item.id
    simpa using hp
  rw [hrm]
  conv_lhs => rw [hb]
  rw [allIds_decomp, allIds_decomp]
  exact ((hitems.append_right (allIds post)).append_left (allIds pre)).trans
    List.perm_middle

/-- Inserting an item into a present column adds exactly one occurrence of
its id to the board's id multiset, wherever the clamped index lands. -/
theorem addItem_allIds_perm (b : Board) (cid : Nat) (j : Int) (it : Item)
    (hsome : (findColumn b cid).isSome) :
    (allIds (addItem b cid j it)).Perm (it.id :: allIds b) := by
  obtain ⟨col, hcol⟩ := Option.isSome_iff_exists.mp hsome
  obtain ⟨pre, post, hb, hcid, hupd⟩ := findColumn_decomp b cid col hcol
  have hins : addItem b cid j it
      = pre ++ { col with items :=
          col.items.insertIdx ((min (max 0 j) ((col.items.length : Int))).toNat) it } :: post := by
    unfold addItem
    rw [hcol]
    exact hupd _
  have hle : (min (max 0 j) ((col.items.length : Int))).toNat ≤ col.items.length :=
    Int.toNat_le.mpr (min_le_right _ _)
  have hitems : ((col.items.insertIdx
        ((min (max 0 j) ((col.items.length : Int))).toNat) it).map Item.id).Perm
      (it.id :: col.items.map Item.id) := by
    have hp := (List.perm_insertIdx it col.items hle).map Item.id
    simpa using hp
  rw [hins]
  conv_rhs => rw [hb]
  rw [allIds_decomp, allIds_decomp]
  dsimp only
  exact (((hitems.append_right (allIds post)).append_left (allIds pre)).trans
    List.perm_middle).trans (List.Perm.cons it.id (List.Perm.refl _))

/-- The operation `removeItem` either leaves the board alone or rewrites one column's
items in place. -/
theorem removeItem_cases (b : Board) (cid : Nat) (i : Int) :
    removeItem b cid i = b ∨ ∃ f, removeItem b cid i = updateColumn b cid f := by
  unfold removeItem
  cases findColumn b cid with
  | none => exact Or.inl rfl
  | some col =>
    by_cases hrange : i < 0 ∨ (col.items.length : Int) ≤ i
    · exact Or.inl (if_pos hrange)
    · exact Or.inr ⟨_, if_neg hrange⟩

/-- Rewriting items via `updateColumn` never changes which column ids resolve. -/
theorem findColumn_updateColumn_isSome (b : Board) (cid0 cid : Nat)
    (f : List Item → List Item) :
    (findColumn (updateColumn b cid0 f) cid).isSome = (findColumn b cid).isSome := by
  induction b with
  | nil => rfl
  | cons c cs ih =>
    unfold updateColumn
    by_cases h0 : (c.id == cid0) = true
    · rw [if_pos h0]
      unfold findColumn
      by_cases hc : (c.id == cid) = true
      · rw [@List.find?_cons_of_pos Column (fun x => x.id == cid)
            { id := c.id, items := f c.items } cs hc,
          @List.find?_cons_of_pos Column (fun x => x.id == cid) c cs hc]
        rfl
      · rw [@List.find?_cons_of_neg Column (fun x => x.id == cid)
            { id := c.id, items := f c.items } cs hc,
          @List.find?_cons_of_neg Column (fun x => x.id == cid) c cs hc]
    · rw [if_neg h0]
      unfold findColumn
      by_cases hc : (c.id == cid) = true
      · rw [@List.find?_cons_of_pos Column (fun x => x.id == cid) c
            (updateColumn cs cid0 f) hc,
          @List.find?_cons_of_pos Column (fun x => x.id == cid) c cs hc]
      · rw [@List.find?_cons_of_neg Column (fun x => x.id == cid) c
            (updateColumn cs cid0 f) hc,
          @List.find?_cons_of_neg Column (fun x => x.id == cid) c cs hc]
        exact ih

/-- In a list whose ids are distinct, looking up a member's id finds
exactly that member. -/
theorem find?_eq_of_mem_of_nodup (l : List Item) (a : Item)
    (ha : a ∈ l) (hnd : (l.map Item.id).Nodup) :
    l.find? (fun x => x.id == a.id) = some a := by
  induction l with
  | nil => cases ha
  | cons c cs ih =>
    by_cases hc : (c.id == a.id) = true
    · rw [@List.find?_cons_of_pos Item (fun x => x.id == a.id) c cs hc]
      cases List.mem_cons.mp ha with
      | inl h => rw [h]
      | inr h =>
        exfalso
        have hca : c.id = a.id := by simpa using hc
        have hmm : a.id ∈ cs.map Item.id := List.mem_map_of_mem Item.id h
        have hnotin := (List.nodup_cons.mp hnd).1
        rw [hca] at hnotin
        exact hnotin hmm
    · rw [@List.find?_cons_of_neg Item (fun x => x.id == a.id) c cs hc]
      apply ih
      · cases List.mem_cons.mp ha with
        | inl h =>
          exfalso
          rw [h] at hc
          simp at hc
        | inr h => exact h
      · exact (List.nodup_cons.mp hnd).2

/-- Global id uniqueness restricts to each column. -/
theorem nodup_col_of_nodup_allIds (pre post : Board) (c : Column)
    (hnd : (allIds (pre ++ c :: post)).Nodup) :
    (c.items.map Item.id).Nodup := by
  rw [allIds_decomp] at hnd
  have hsub : (c.items.map Item.id).Sublist
      (allIds pre ++ (c.items.map Item.id ++ allIds post)) :=
    ((c.items.map Item.id).sublist_append_left (allIds post)).trans
      (List.sublist_append_right _ _)
  exact List.Nodup.sublist hsub hnd

/-- Claim C1 is false as universally stated: the commit removes by the
DOM-carried `itemIndex` but inserts a copy found by id, so a stale or
out-of-range index duplicates the dragged item.  Board with one column
holding ids 1, 2; committing item id 1 with `itemIndex = 2` (out of range —
the guarded removal silently no-ops) and target index 1 yields ids
1, 1, 2: id 1 now appears twice. -/
theorem C1_counterexample :
    ¬ (allIds (handleDrop [⟨0, [⟨1, "A"⟩, ⟨2, "B"⟩]⟩] 0 0 1 2 1 0 50)).Nodup := by
  decide

/-- Claim C1, amended: when the commit's `itemIndex` actually is the
position of the dragged item's id inside the origin column (the situation
an untouched mid-session model guarantees) and the target column id
resolves, the commit permutes the board's id multiset: every id still
appears exactly once and the total item count is unchanged — the move is a
relocation, not a copy.  Otherwise (stale or out-of-range index) the commit
can duplicate the dragged item or delete a bystander, as the
counterexample shows. -/
theorem C1_amended_commit_preserves_ids (b : Board) (srcCid tgtCid itemId : Nat)
    (i : Nat) (tIdx : Int) (pos H : ℚ) (col : Column) (it : Item)
    (hnd : (allIds b).Nodup)
    (hcol : findColumn b srcCid = some col)
    (hget : col.items[i]? = some it)
    (hid : it.id = itemId)
    (htgt : (findColumn b tgtCid).isSome) :
    ((allIds (handleDrop b srcCid tgtCid itemId (i : Int) tIdx pos H)).Perm (allIds b)) ∧
    (allIds (handleDrop b srcCid tgtCid itemId (i : Int) tIdx pos H)).Nodup ∧
    (allIds (handleDrop b srcCid tgtCid itemId (i : Int) tIdx pos H)).length
      = (allIds b).length := by
  have hi : i < col.items.length := by
    by_contra hge
    rw [List.getElem?_eq_none (by omega)] at hget
    exact Option.noConfusion hget
  have hmem : it ∈ col.items := by
    have hg : col.items[i] = it := by
      have he := List.getElem?_eq_getElem hi
      rw [he] at hget
      injection hget
    rw [← hg]
    exact List.getElem_mem hi
  obtain ⟨pre, post, hb, hcid, _⟩ := findColumn_decomp b srcCid col hcol
  have hndcol : (col.items.map Item.id).Nodup :=
    nodup_col_of_nodup_allIds pre post col (hb ▸ hnd)
  have hfind : findItemById b srcCid itemId = some it := by
    unfold findItemById
    rw [hcol, ← hid]
    exact find?_eq_of_mem_of_nodup col.items it hmem hndcol
  have hperm1 := removeItem_allIds_perm b srcCid i col it hcol hget
  have htgt1 : (findColumn (removeItem b srcCid (i : Int)) tgtCid).isSome := by
    rcases removeItem_cases b srcCid (i : Int) with h | ⟨f, h⟩
    · rw [h]
      exact htgt
    · rw [h, findColumn_updateColumn_isSome]
      exact htgt
  have hperm2 := addItem_allIds_perm (removeItem b srcCid (i : Int)) tgtCid
    (if tIdx = 0 then Int.floor (pos / H) else tIdx) it htgt1
  have hdrop : handleDrop b srcCid tgtCid itemId (i : Int) tIdx pos H
      = addItem (removeItem b srcCid (i : Int)) tgtCid
          (if tIdx = 0 then Int.floor (pos / H) else tIdx) it := by
    unfold handleDrop
    rw [hfind]
  have hperm : (allIds (handleDrop b srcCid tgtCid itemId (i : Int) tIdx pos H)).Perm
      (allIds b) := by
    rw [hdrop]
    exact hperm2.trans hperm1.symm
  exact ⟨hperm, hperm.nodup_iff.mpr hnd, hperm.length_eq⟩

/-- Witness for C1's amended statement: moving id 2 (index 1 of column 0)
to column 1, with the drop falling back to the pointer formula. -/
theorem C1_witness :
    ((allIds (handleDrop [⟨0, [⟨1, "A"⟩, ⟨2, "B"⟩]⟩, ⟨1, [⟨3, "C"⟩]⟩]
          0 1 2 ((1 : Nat) : Int) 0 60 50)).Perm
        (allIds [⟨0, [⟨1, "A"⟩, ⟨2, "B"⟩]⟩, ⟨1, [⟨3, "C"⟩]⟩])) ∧
    (allIds (handleDrop [⟨0, [⟨1, "A"⟩, ⟨2, "B"⟩]⟩, ⟨1, [⟨3, "C"⟩]⟩]
        0 1 2 ((1 : Nat) : Int) 0 60 50)).Nodup ∧
    (allIds (handleDrop [⟨0, [⟨1, "A"⟩, ⟨2, "B"⟩]⟩, ⟨1, [⟨3, "C"⟩]⟩]
        0 1 2 ((1 : Nat) : Int) 0 60 50)).length
      = (allIds [⟨0, [⟨1, "A"⟩, ⟨2, "B"⟩]⟩, ⟨1, [⟨3, "C"⟩]⟩]).length :=
  C1_amended_commit_preserves_ids
    [⟨0, [⟨1, "A"⟩, ⟨2, "B"⟩]⟩, ⟨1, [⟨3, "C"⟩]⟩] 0 1 2 1 0 60 50
    ⟨0, [⟨1, "A"⟩, ⟨2, "B"⟩]⟩ ⟨2, "B"⟩
    (by decide) (by decide) (by decide) rfl (by decide)

/-- Witness for C2's amended statement: hovering slot 3 of a 4-item list
(y = 170, itemHeight = 50) yields index 3, which agrees with the clamped
formula. -/
theorem C2_witness :
    dropTargetIndex 170 50 = ((3 : Nat) : Int) ∧
    dropTargetIndex 170 50 = specInsertionIndex 170 50 4 :=
  ⟨(C2_amended_insertion_index 170 50 (by norm_num)).1 3 (by norm_num) (by norm_num),
   (C2_amended_insertion_index 170 50 (by norm_num)).2 4
     (by unfold dropTargetIndex; norm_num) (by unfold dropTargetIndex; norm_num)⟩
